import Mathlib

/-!
Shallow embedding of `scripts/clean_blocklist.py` (the blocklist liveness
resolution engine) and proofs about the behaviour its specification claims.

Modelling conventions:
* Python strings are Lean `String`; the string primitives the script uses
  (`strip`, `rstrip(".")`, `lower`, `startswith`, substring tests) are defined
  below over the character list `String.data` so that they evaluate by `rfl`.
* The network is an oracle: DNS-over-HTTPS queries are a function from
  `(endpoint, domain, record type)` to `Option Json` (`none` models the
  exception/“no data” path that `_query_doh` turns into `None`), and HTTP
  probes are a function from a URL to the outcome of its HEAD and GET requests.
* Python exceptions that can escape a function are modelled with
  `Except PyExc`; a `.error` value means the Python code raises.
* The module-level dict `_RESOLUTION_CACHE` is threaded explicitly as a value
  of type `Cache`; the per-run entry cache of `main` likewise.
* `resolve_domain` recurses on CNAME targets; in Python its termination is
  ensured by the `visited` guard (`key in visited or len(visited) > 5`).  The
  embedding makes that bound explicit with a structural fuel argument
  initialised to `6 - visited.length`; the fuel-zero fallback is reachable
  only when `visited.length ≥ 6`, in which case the Python guard produces the
  same answer (see `resolveFuel_fuel_irrelevant`).
-/

/-! ## String primitives (Python string semantics over `String.data`) -/

/-- `s.lower()` (ASCII case folding, which is all the script relies on). -/
def strLower (s : String) : String := ⟨s.data.map Char.toLower⟩

/-- `s.rstrip(".")`: drop every trailing `'.'`. -/
def rstripDots (s : String) : String := ⟨(s.data.reverse.dropWhile (· = '.')).reverse⟩

/-- Drop leading and trailing whitespace from a character list. -/
def trimChars (cs : List Char) : List Char :=
  ((cs.dropWhile Char.isWhitespace).reverse.dropWhile Char.isWhitespace).reverse

/-- `s.strip()` (ASCII whitespace, which is all the inputs contain). -/
def strTrim (s : String) : String := ⟨trimChars s.data⟩

/-- `s.startswith(pre)`. -/
def strStartsWith (s pre : String) : Bool := pre.data.isPrefixOf s.data

/-- Whether `pat` occurs as a contiguous run inside the character list. -/
def hasInfixChars (pat : List Char) : List Char → Bool
  | [] => pat.isEmpty
  | c :: rest => pat.isPrefixOf (c :: rest) || hasInfixChars pat rest

/-- Python's `pat in s` substring test. -/
def strContains (s pat : String) : Bool := hasInfixChars pat.data s.data

/-- `not s` for a Python string: emptiness. -/
def strIsEmpty (s : String) : Bool := s.data.isEmpty

/-- Accumulate decimal digits; `none` on the first non-digit. -/
def digitsToNatAux : List Char → Nat → Option Nat
  | [], acc => some acc
  | c :: rest, acc =>
    if c.isDigit then digitsToNatAux rest (acc * 10 + (c.toNat - 48)) else none

/-- `int(s)` for an already-stripped string: optional sign then decimal digits,
`none` where Python raises `ValueError`.  (Python also accepts underscore
digit grouping, which never occurs in DNS JSON; that corner is not modelled.) -/
def strToInt : String → Option Int := fun s =>
  match s.data with
  | [] => none
  | '-' :: rest =>
    if rest.isEmpty then none else (digitsToNatAux rest 0).map (fun n => -(n : Int))
  | '+' :: rest =>
    if rest.isEmpty then none else (digitsToNatAux rest 0).map (fun n => (n : Int))
  | cs => (digitsToNatAux cs 0).map (fun n => (n : Int))

/-- Strict lexicographic comparison of character lists by code point. -/
def charListLt : List Char → List Char → Bool
  | _, [] => false
  | [], _ :: _ => true
  | a :: as, b :: bs =>
    if a.val < b.val then true else if b.val < a.val then false else charListLt as bs

/-- Python's `<` on strings. -/
def strLt (a b : String) : Bool := charListLt a.data b.data

/-- Insert into an ascending list, keeping ascending order. -/
def insertSorted (a : String) : List String → List String
  | [] => [a]
  | b :: bs => if strLt b a then b :: insertSorted a bs else a :: b :: bs

/-- `sorted(xs)` for a list of strings. -/
def sortStrs (xs : List String) : List String := xs.foldr insertSorted []

/-- Lookup in an association list (a Python `dict` that is only ever updated
by key assignment, modelled with the newest binding first). -/
def assocGet {α : Type} : List (String × α) → String → Option α
  | [], _ => none
  | (k, v) :: rest, key => if k = key then some v else assocGet rest key

/-! ## Python exceptions and JSON values -/

/-- The exceptions the script can raise past `_query_doh`'s handler. -/
inductive PyExc where
  | valueError
  | attributeError
  | typeError
deriving DecidableEq

/-- JSON values as returned by `response.json()`. -/
inductive Json where
  | null
  | bool (b : Bool)
  | num (n : Int)
  | str (s : String)
  | arr (elems : List Json)
  | obj (fields : List (String × Json))

/-- Python truthiness of a JSON value. -/
def Json.isTruthy : Json → Bool
  | .null => false
  | .bool b => b
  | .num n => n != 0
  | .str s => !strIsEmpty s
  | .arr elems => !elems.isEmpty
  | .obj fields => !fields.isEmpty

/-- First binding for a key in a JSON object's field list. -/
def jsonLookup : List (String × Json) → String → Option Json
  | [], _ => none
  | (k, v) :: rest, key => if k = key then some v else jsonLookup rest key

/-- `j.get(key, dflt)`: only dicts have `.get`; anything else raises
`AttributeError`. -/
def Json.getD (j : Json) (key : String) (dflt : Json) : Except PyExc Json :=
  match j with
  | .obj fields => .ok ((jsonLookup fields key).getD dflt)
  | _ => .error .attributeError

/-- Python `a or b`. -/
def pyOr (a b : Json) : Json := if a.isTruthy then a else b

/-- `int(j)`: ints and bools convert, numeric strings parse, everything else
raises (`ValueError` for a non-numeric string, `TypeError` otherwise). -/
def pyInt : Json → Except PyExc Int
  | .num n => .ok n
  | .bool b => .ok (if b then 1 else 0)
  | .str s =>
    match strToInt (strTrim s) with
    | some n => .ok n
    | none => .error .valueError
  | _ => .error .typeError

/-- `j.strip()`: only strings have `.strip`. -/
def pyStrStrip : Json → Except PyExc String
  | .str s => .ok (strTrim s)
  | _ => .error .attributeError

/-- `for x in j`: lists yield elements, strings their characters, dicts their
keys; other values raise `TypeError`. -/
def pyIter : Json → Except PyExc (List Json)
  | .arr elems => .ok elems
  | .str s => .ok (s.data.map (fun c => .str (String.mk [c])))
  | .obj fields => .ok (fields.map (fun kv => .str kv.1))
  | _ => .error .typeError

/-! ## Module constants -/

/-- `DOH_ENDPOINTS` from the script. -/
def DOH_ENDPOINTS : List String :=
  ["https://cloudflare-dns.com/dns-query",
   "https://dns.google/resolve",
   "https://dns.quad9.net/dns-query"]

/-- The record types `resolve_domain` iterates over, in order. -/
def RECORD_TYPES : List String := ["A", "AAAA", "CNAME"]

/-- `SINKHOLE_IPS` from the script. -/
def SINKHOLE_IPS : List String := ["0.0.0.0", "127.0.0.1", "::", "::1"]

/-- The nested `for endpoint / for record_type` loops, flattened in order. -/
def queryPlan : List (String × String) :=
  (DOH_ENDPOINTS.map (fun e => RECORD_TYPES.map (fun t => (e, t)))).flatten

/-! ## `ResolutionResult` -/

/-- The frozen dataclass `ResolutionResult`; `addresses` preserves the tuple
the script builds with `tuple(sorted(addresses))`. -/
structure ResolutionResult where
  addresses : List String
  has_authority : Bool
  status : Int
deriving DecidableEq

/-- The `has_non_sinkhole` property. -/
def ResolutionResult.has_non_sinkhole (r : ResolutionResult) : Bool :=
  r.addresses.any (fun address => !(SINKHOLE_IPS.contains address))

/-- The `sinkhole_only` property. -/
def ResolutionResult.sinkhole_only (r : ResolutionResult) : Bool :=
  !r.addresses.isEmpty && !r.has_non_sinkhole

/-- The `indicates_presence` method, branch for branch. -/
def ResolutionResult.indicates_presence (r : ResolutionResult) : Bool :=
  if r.has_non_sinkhole then true
  else if r.sinkhole_only then true
  else false

/-! ## HTTP prober -/

/-- What the network does for one URL: `head`/`get` are the outcome of the
HEAD and GET requests `responds` can issue; `none` is a
`requests.RequestException`, `some code` a received response with that
status code. -/
structure HttpBehavior where
  head : Option Nat
  get : Option Nat
deriving DecidableEq

/-- An HTTP network oracle, one behaviour per URL. -/
abbrev HttpOracle : Type := String → HttpBehavior

/-- `responds(url)`: `True` once the `try` block completes, i.e. the HEAD
request received a response and, if its status was 405, the GET retry also
received one; `False` on a `requests.RequestException`. -/
def responds (b : HttpBehavior) : Bool :=
  match b.head with
  | none => false
  | some code => if code = 405 then b.get.isSome else true

/-! ## Entry classifier (`candidate_urls`, `is_full_url`) -/

/-- Valid scheme characters after the first (letters, digits, `+`, `-`, `.`). -/
def isSchemeChar (c : Char) : Bool := c.isAlphanum || c = '+' || c = '-' || c = '.'

/-- Split a character list at its first `':'`, if any. -/
def splitColon : List Char → Option (List Char × List Char)
  | [] => none
  | c :: rest =>
    if c = ':' then some ([], rest)
    else (splitColon rest).map (fun pr => (c :: pr.1, pr.2))

/-- Modelled from the stdlib: `urllib.parse.urlparse` restricted to the two
fields the script reads.  The scheme is the part before the first `':'` when
it is non-empty, starts with a letter and contains only scheme characters
(urlparse lower-cases it); the netloc is the run after a leading `"//"` of
the remainder, up to `/`, `?` or `#`. -/
def urlSchemeNetloc (s : String) : String × String :=
  let cs := s.data
  let schemeRest : List Char × List Char :=
    match splitColon cs with
    | some (pre, post) =>
      if pre ≠ [] ∧ (pre.headD 'a').isAlpha ∧ pre.all isSchemeChar then
        (pre.map Char.toLower, post)
      else ([], cs)
    | none => ([], cs)
  let netloc : List Char :=
    match schemeRest.2 with
    | '/' :: '/' :: after =>
      after.takeWhile (fun c => c ≠ '/' ∧ c ≠ '?' ∧ Char.ofNat 35 ≠ c)
    | _ => []
  (⟨schemeRest.1⟩, ⟨netloc⟩)

/-- `is_full_url` from the script. -/
def is_full_url (entry : String) : Bool :=
  if !strContains entry "://" then false
  else
    let parsed := urlSchemeNetloc entry
    !strIsEmpty parsed.1 && !strIsEmpty parsed.2

/-- The character blocklist `invalid_chars` (quote, apostrophe, backtick and
braces written by code point). -/
def INVALID_CHARS : List Char :=
  [' ', '\t', Char.ofNat 34, Char.ofNat 39, Char.ofNat 96,
   '<', '>', '|', '(', ')', Char.ofNat 123, Char.ofNat 125, '[', ']']

/-- `candidate_urls(entry)` from the script. -/
def candidate_urls (entry0 : String) : List String :=
  let entry := strTrim entry0
  if strIsEmpty entry then []
  else if strContains entry "://" then
    let parsed := urlSchemeNetloc entry
    if !strIsEmpty parsed.1 && !strIsEmpty parsed.2 then [entry] else []
  else if strStartsWith entry "/" || entry.data.any (fun c => INVALID_CHARS.contains c) then []
  else if !strContains entry "." then []
  else ["http://" ++ entry, "https://" ++ entry]

/-! ## DoH resolver -/

/-- A DoH network oracle: what `_query_doh(endpoint, domain, record_type)`
returns — `none` for its handled-failure path, `some j` for a parsed JSON
body `j`. -/
abbrev DohOracle : Type := String → String → String → Option Json

/-- The global `_RESOLUTION_CACHE`, threaded as a value. -/
abbrev Cache : Type := List (String × ResolutionResult)

/-- The DoH queries a call issues, in order, as `(endpoint, domain, type)`. -/
abbrev QueryLog : Type := List (String × String × String)

/-- `domain.rstrip(".").lower()`. -/
def normKey (domain : String) : String := strLower (rstripDots domain)

/-- The guard's `ResolutionResult((), False, status=2)`. -/
def emptyServfail : ResolutionResult := ⟨[], false, 2⟩

/-- The recursive resolution a CNAME answer triggers, abstracted so the loop
bodies can be stated and proved independently of the fuel. -/
abbrev Resolver : Type := Cache → String → Except PyExc (ResolutionResult × Cache × QueryLog)

/-- The loop state of one sweep: the `addresses` set (kept duplicate-free, as
a Python `set` is), `has_authority`, `status_codes`, plus the threaded cache
and query log. -/
structure SweepState where
  addresses : List String
  has_authority : Bool
  status_codes : List Int
  cache : Cache
  log : QueryLog

/-- `addresses.add(a)` on the set modelled as a duplicate-free list. -/
def setAdd (xs : List String) (a : String) : List String :=
  if a ∈ xs then xs else a :: xs

/-- `addresses.update(ys)`. -/
def setUnion (xs ys : List String) : List String := ys.foldl setAdd xs

/-- The `for authority in …` scan: `True` at the first NS (2) or SOA (6)
record (the loop `break`s there, so later ill-typed entries are not touched). -/
def scanAuthority : List Json → Except PyExc Bool
  | [] => .ok false
  | a :: rest =>
    match a.getD "type" (.num 0) with
    | .error e => .error e
    | .ok tj =>
      match pyInt tj with
      | .error e => .error e
      | .ok t => if t = 2 ∨ t = 6 then .ok true else scanAuthority rest

/-- The body of the `for answer in …` loop of `resolve_domain`. -/
def processAnswer (rec : Resolver) (next_visited : List String) (st : SweepState)
    (answer : Json) : Except PyExc SweepState :=
  match answer.getD "type" (.num 0) with
  | .error e => .error e
  | .ok tj =>
    match pyInt tj with
    | .error e => .error e
    | .ok ans_type =>
      match answer.getD "data" .null with
      | .error e => .error e
      | .ok dj =>
        match pyStrStrip (pyOr dj (.str "")) with
        | .error e => .error e
        | .ok value =>
          if strIsEmpty value then .ok st
          else if ans_type = 1 ∨ ans_type = 28 then
            .ok { st with addresses := setAdd st.addresses (rstripDots value) }
          else if ans_type = 5 then
            let target := rstripDots value
            if strIsEmpty target = false ∧ target ∉ next_visited then
              match rec st.cache target with
              | .error e => .error e
              | .ok (target_result, cache', log') =>
                .ok { st with
                      addresses := setUnion st.addresses target_result.addresses,
                      has_authority := st.has_authority || target_result.has_authority,
                      cache := cache',
                      log := st.log ++ log' }
            else .ok st
          else .ok st

/-- The `for answer in …` loop. -/
def processAnswers (rec : Resolver) (next_visited : List String) :
    SweepState → List Json → Except PyExc SweepState
  | st, [] => .ok st
  | st, a :: rest =>
    match processAnswer rec next_visited st a with
    | .error e => .error e
    | .ok st' => processAnswers rec next_visited st' rest

/-- One iteration of the nested endpoint/record-type loops: issue the query,
and on data, collect the status, process the answers and, while no authority
has been seen and the status is not NXDOMAIN, scan the Authority section. -/
def processQuery (doh : DohOracle) (rec : Resolver) (key : String)
    (next_visited : List String) (st : SweepState) (endpoint rtype : String) :
    Except PyExc SweepState :=
  let st := { st with log := st.log ++ [(endpoint, key, rtype)] }
  match doh endpoint key rtype with
  | none => .ok st
  | some data =>
    if data.isTruthy = false then .ok st
    else
      match data.getD "Status" (.num 0) with
      | .error e => .error e
      | .ok sj =>
        match pyInt sj with
        | .error e => .error e
        | .ok status =>
          let st := { st with status_codes := st.status_codes ++ [status] }
          match data.getD "Answer" .null with
          | .error e => .error e
          | .ok aj =>
            match pyIter (pyOr aj (.arr [])) with
            | .error e => .error e
            | .ok answers =>
              match processAnswers rec next_visited st answers with
              | .error e => .error e
              | .ok st' =>
                if st'.has_authority = false ∧ status ≠ 3 then
                  match data.getD "Authority" .null with
                  | .error e => .error e
                  | .ok uj =>
                    match pyIter (pyOr uj (.arr [])) with
                    | .error e => .error e
                    | .ok auths =>
                      match scanAuthority auths with
                      | .error e => .error e
                      | .ok found =>
                        .ok (if found then { st' with has_authority := true } else st')
                else .ok st'

/-- The nested loops over `queryPlan`. -/
def processQueries (doh : DohOracle) (rec : Resolver) (key : String)
    (next_visited : List String) : SweepState → List (String × String) →
    Except PyExc SweepState
  | st, [] => .ok st
  | st, (e, t) :: rest =>
    match processQuery doh rec key next_visited st e t with
    | .error e' => .error e'
    | .ok st' => processQueries doh rec key next_visited st' rest

/-- The full sweep after the cache and guard checks: run every query, then
build `ResolutionResult(tuple(sorted(addresses)), has_authority, status)`
with `status = min(status_codes) if status_codes else 2`, store it in the
cache and return it. -/
def sweep (doh : DohOracle) (rec : Resolver) (key : String)
    (next_visited : List String) (cache : Cache) :
    Except PyExc (ResolutionResult × Cache × QueryLog) :=
  match processQueries doh rec key next_visited ⟨[], false, [], cache, []⟩ queryPlan with
  | .error e => .error e
  | .ok st =>
    let status := match st.status_codes with
      | [] => 2
      | s :: rest => rest.foldl min s
    let result : ResolutionResult := ⟨sortStrs st.addresses, st.has_authority, status⟩
    .ok (result, (key, result) :: st.cache, st.log)

/-- `resolve_domain` with the recursion depth made structural: normalise the
key, try the cache, apply the cycle/depth guard, then sweep with one fuel
unit consumed per CNAME hop.  With fuel `6 - visited.length` (as
`resolve_domain` supplies) the fuel-zero branch requires `visited.length ≥ 6`,
where the Python guard yields the same `ResolutionResult((), False, 2)`, so
the branch never changes the answer (`resolveFuel_fuel_irrelevant`). -/
def resolveFuel : Nat → DohOracle → Cache → String → List String →
    Except PyExc (ResolutionResult × Cache × QueryLog)
  | 0, _, cache, domain, _ =>
    (match assocGet cache (normKey domain) with
     | some cached => .ok (cached, cache, [])
     | none => .ok (emptyServfail, cache, []))
  | fuel + 1, doh, cache, domain, visited =>
    let key := normKey domain
    match assocGet cache key with
    | some cached => .ok (cached, cache, [])
    | none =>
      if key ∈ visited ∨ 5 < visited.length then .ok (emptyServfail, cache, [])
      else sweep doh (fun c d => resolveFuel fuel doh c d (key :: visited)) key
        (key :: visited) cache

/-- `resolve_domain(domain, visited=visited)` over a DoH oracle and explicit
cache; the result also carries the queries issued. -/
def resolve_domain (doh : DohOracle) (cache : Cache) (domain : String)
    (visited : List String) : Except PyExc (ResolutionResult × Cache × QueryLog) :=
  resolveFuel (6 - visited.length) doh cache domain visited

/-! ## Liveness decision engine -/

/-- `is_entry_live(entry, urls)`: full URLs go straight to probing; bare
domains are resolved, then the sinkhole-aware presence check, then the
`www.` fallback (probe first, then resolution), then direct probing. -/
def is_entry_live (doh : DohOracle) (http : HttpOracle) (rcache : Cache)
    (entry : String) (urls : List String) : Except PyExc (Bool × Cache) :=
  if is_full_url entry then .ok (urls.any (fun url => responds (http url)), rcache)
  else
    let domain := strLower entry
    match resolve_domain doh rcache domain [] with
    | .error e => .error e
    | .ok (resolution, rc1, _) =>
      if resolution.indicates_presence then .ok (true, rc1)
      else if resolution.has_authority then
        let www_domain := "www." ++ domain
        let www_urls := ["http://" ++ www_domain, "https://" ++ www_domain]
        if www_urls.any (fun url => responds (http url)) then .ok (true, rc1)
        else
          match resolve_domain doh rc1 www_domain [] with
          | .error e => .error e
          | .ok (www_resolution, rc2, _) =>
            if www_resolution.indicates_presence then .ok (true, rc2)
            else .ok (urls.any (fun url => responds (http url)), rc2)
      else .ok (urls.any (fun url => responds (http url)), rc1)

/-! ## Run orchestrator (the per-line loop of `main`) -/

/-- The mutable state of `main`'s loop: the output lines, the removed and
skipped entries, the per-run entry cache, and the resolution cache. -/
structure RunState where
  cleaned : List String
  removed : List String
  skipped_checks : List String
  cache : List (String × Bool)
  rcache : Cache

/-- One iteration of `for raw in raw_lines`. -/
def processLine (doh : DohOracle) (http : HttpOracle) (s : RunState)
    (raw : String) : Except PyExc RunState :=
  let stripped := strTrim raw
  if strIsEmpty stripped || strStartsWith stripped "#" then
    .ok { s with cleaned := s.cleaned ++ [raw] }
  else
    let urls := candidate_urls stripped
    if urls.isEmpty then
      .ok { s with cleaned := s.cleaned ++ [raw],
                   skipped_checks := s.skipped_checks ++ [stripped] }
    else
      let key := strLower stripped
      match assocGet s.cache key with
      | some is_live =>
        .ok (if is_live then { s with cleaned := s.cleaned ++ [stripped] }
             else { s with removed := s.removed ++ [stripped] })
      | none =>
        match is_entry_live doh http s.rcache stripped urls with
        | .error e => .error e
        | .ok (is_live, rc) =>
          let s := { s with cache := (key, is_live) :: s.cache, rcache := rc }
          .ok (if is_live then { s with cleaned := s.cleaned ++ [stripped] }
               else { s with removed := s.removed ++ [stripped] })

/-- The whole loop of `main`; an uncaught exception in one line aborts the
remainder, exactly as in Python. -/
def processLines (doh : DohOracle) (http : HttpOracle) :
    RunState → List String → Except PyExc RunState
  | s, [] => .ok s
  | s, raw :: rest =>
    match processLine doh http s raw with
    | .error e => .error e
    | .ok s' => processLines doh http s' rest

/-- The state `main` starts from. -/
def initState : RunState := ⟨[], [], [], [], []⟩

/-! ## The address invariant (deduplicated, trailing dots stripped) -/

def addrsOk (xs : List String) : Prop :=
  xs.Nodup ∧ ∀ a ∈ xs, rstripDots a = a

def resAddrsOk (r : ResolutionResult) : Prop := addrsOk r.addresses

def cacheAddrsOk (c : Cache) : Prop := ∀ kr ∈ c, resAddrsOk kr.2

def sweepAddrsOk (st : SweepState) : Prop := addrsOk st.addresses ∧ cacheAddrsOk st.cache

def RecAddrsOk (rec : Resolver) : Prop :=
  ∀ c d r c' l, cacheAddrsOk c → rec c d = .ok (r, c', l) → resAddrsOk r ∧ cacheAddrsOk c'

/-! ## The empty-addresses invariant under answer-free oracles -/

def answersOf (j : Json) : Except PyExc (List Json) :=
  match j.getD "Answer" .null with
  | .error e => .error e
  | .ok aj => pyIter (pyOr aj (.arr []))

def NoAnswerOracle (doh : DohOracle) : Prop :=
  ∀ e d t j, doh e d t = some j → j.isTruthy = true → answersOf j = .ok []

def cacheEmptyOk (c : Cache) : Prop := ∀ kr ∈ c, kr.2.addresses = ([] : List String)

def sweepEmptyOk (st : SweepState) : Prop :=
  st.addresses = [] ∧ cacheEmptyOk st.cache

/-! ## Concrete oracles and states used by the closed evaluations -/

/-- HTTP oracle on which every request fails at the network level. -/
def http0 : HttpOracle := fun _ => ⟨none, none⟩

/-- DoH oracle on which every query fails (the `_query_doh` `None` path). -/
def noneOracle : DohOracle := fun _ _ _ => none

/-- The queries a CNAME-free sweep for `key` issues, in order. -/
def planLog (key : String) : QueryLog := queryPlan.map (fun et => (et.1, key, et.2))

/-- DoH oracle: one A record `0.0.0.0` for `sink.example`, nothing else. -/
def sinkOracle : DohOracle := fun e d t =>
  if e = "https://cloudflare-dns.com/dns-query" ∧ d = "sink.example" ∧ t = "A" then
    some (.obj [("Status", .num 0),
                ("Answer", .arr [.obj [("type", .num 1), ("data", .str "0.0.0.0")]])])
  else none

def sinkRes : ResolutionResult := ⟨["0.0.0.0"], false, 0⟩

def sinkCache : Cache := [("sink.example", sinkRes)]

/-- DoH oracle whose every body is syntactically valid JSON but carries a
non-numeric `Status` — `int()` raises `ValueError` on it. -/
def badStatusOracle : DohOracle := fun _ _ _ => some (.obj [("Status", .str "SERVFAIL")])

/-- A NOERROR response whose single answer is a CNAME to `target`. -/
def cnameAnswer (target : String) : Json :=
  .obj [("Status", .num 0),
        ("Answer", .arr [.obj [("type", .num 5), ("data", .str target)]])]

/-- DoH oracle with the CNAME cycle `a.example → b.example → a.example`. -/
def cycleOracle : DohOracle := fun _ d t =>
  if t = "CNAME" then
    if d = "a.example" then some (cnameAnswer "b.example")
    else if d = "b.example" then some (cnameAnswer "a.example")
    else none
  else some (.obj [("Status", .num 0)])

def cycleCache : Cache :=
  [("a.example", ⟨[], false, 0⟩), ("b.example", ⟨[], false, 0⟩)]

/-- DoH oracle: `auth.example` has an SOA authority record and no answers. -/
def authOracle : DohOracle := fun _ d _ =>
  if d = "auth.example" then
    some (.obj [("Status", .num 0), ("Authority", .arr [.obj [("type", .num 6)]])])
  else none

def authRes : ResolutionResult := ⟨[], true, 0⟩

def authCache : Cache := [("auth.example", authRes)]

/-- HTTP oracle on which only `http://www.auth.example` responds. -/
def authHttp : HttpOracle := fun url =>
  if url = "http://www.auth.example" then ⟨some 200, none⟩ else ⟨none, none⟩

/-- DoH oracle: one AAAA record with mixed case and a trailing dot. -/
def upperOracle : DohOracle := fun e d t =>
  if e = "https://cloudflare-dns.com/dns-query" ∧ d = "up.example" ∧ t = "AAAA" then
    some (.obj [("Status", .num 0),
                ("Answer", .arr [.obj [("type", .num 28), ("data", .str "2001:DB8::1.")]])])
  else none

def upRes : ResolutionResult := ⟨["2001:DB8::1"], false, 0⟩

def cachedRes : ResolutionResult := ⟨["9.9.9.9"], true, 0⟩

def cache0 : Cache := [("cached.example", cachedRes)]

/-! ## Basic lemmas -/

theorem dropWhileTwice {α : Type} (p : α → Bool) (l : List α) :
    (l.dropWhile p).dropWhile p = l.dropWhile p := by
  induction l with
  | nil => rfl
  | cons a l ih =>
    by_cases h : p a
    · simp [List.dropWhile_cons, h, ih]
    · simp [List.dropWhile_cons, h]

theorem rstripDots_idem (s : String) : rstripDots (rstripDots s) = rstripDots s := by
  simp [rstripDots, dropWhileTwice]

theorem setAdd_nodup {xs : List String} {a : String} (h : xs.Nodup) :
    (setAdd xs a).Nodup := by
  by_cases hmem : a ∈ xs <;> simp [setAdd, hmem, h]

theorem setAdd_mem {xs : List String} {a b : String} (h : b ∈ setAdd xs a) :
    b ∈ xs ∨ b = a := by
  by_cases hmem : a ∈ xs <;> simp [setAdd, hmem] at h <;> tauto

theorem setUnion_nodup : ∀ (ys xs : List String), xs.Nodup → (setUnion xs ys).Nodup
  | [], _, h => h
  | y :: ys, xs, h => setUnion_nodup ys (setAdd xs y) (setAdd_nodup h)

theorem setUnion_mem : ∀ (ys xs : List String) (b : String),
    b ∈ setUnion xs ys → b ∈ xs ∨ b ∈ ys
  | [], _, _, h => Or.inl h
  | y :: ys, xs, b, h => by
    rcases setUnion_mem ys (setAdd xs y) b h with h' | h'
    · rcases setAdd_mem h' with h'' | h''
      · exact Or.inl h''
      · exact Or.inr (by simp [h''])
    · exact Or.inr (by simp [h'])

theorem insertSorted_perm (a : String) (l : List String) :
    (insertSorted a l).Perm (a :: l) := by
  induction l with
  | nil => rfl
  | cons b bs ih =>
    simp only [insertSorted]
    split
    · exact (ih.cons b).trans (List.Perm.swap a b bs)
    · exact List.Perm.refl _

theorem sortStrs_perm (l : List String) : (sortStrs l).Perm l := by
  induction l with
  | nil => rfl
  | cons a l ih => exact (insertSorted_perm a (sortStrs l)).trans (ih.cons a)

/-! ## Unfolding lemmas for the resolver -/

theorem resolveFuel_cache_hit (fuel : Nat) (doh : DohOracle) (cache : Cache)
    (domain : String) (visited : List String) (r : ResolutionResult)
    (h : assocGet cache (normKey domain) = some r) :
    resolveFuel fuel doh cache domain visited = .ok (r, cache, []) := by
  cases fuel with
  | zero => simp only [resolveFuel, h]
  | succ n => simp only [resolveFuel, h]

theorem resolveFuel_guard (fuel : Nat) (doh : DohOracle) (cache : Cache)
    (domain : String) (visited : List String)
    (hmiss : assocGet cache (normKey domain) = none)
    (hguard : normKey domain ∈ visited ∨ 5 < visited.length) :
    resolveFuel fuel doh cache domain visited = .ok (emptyServfail, cache, []) := by
  cases fuel with
  | zero => simp only [resolveFuel, hmiss]
  | succ n =>
    simp only [resolveFuel, hmiss]
    rw [if_pos hguard]

theorem resolveFuel_sweep (fuel : Nat) (doh : DohOracle) (cache : Cache)
    (domain : String) (visited : List String)
    (hmiss : assocGet cache (normKey domain) = none)
    (hguard : ¬(normKey domain ∈ visited ∨ 5 < visited.length)) :
    resolveFuel (fuel + 1) doh cache domain visited =
      sweep doh (fun c d => resolveFuel fuel doh c d (normKey domain :: visited))
        (normKey domain) (normKey domain :: visited) cache := by
  simp only [resolveFuel, hmiss]
  rw [if_neg hguard]

theorem setAdd_addrsOk {xs : List String} {a : String}
    (hxs : addrsOk xs) (ha : rstripDots a = a) : addrsOk (setAdd xs a) := by
  refine ⟨setAdd_nodup hxs.1, fun b hb => ?_⟩
  rcases setAdd_mem hb with h | h
  · exact hxs.2 b h
  · exact h ▸ ha

theorem setUnion_addrsOk {xs ys : List String}
    (hxs : addrsOk xs) (hys : ∀ a ∈ ys, rstripDots a = a) : addrsOk (setUnion xs ys) := by
  refine ⟨setUnion_nodup ys xs hxs.1, fun b hb => ?_⟩
  rcases setUnion_mem ys xs b hb with h | h
  · exact hxs.2 b h
  · exact hys b h

theorem sortStrs_addrsOk {xs : List String} (h : addrsOk xs) : addrsOk (sortStrs xs) :=
  ⟨((sortStrs_perm xs).nodup_iff).mpr h.1,
   fun a ha => h.2 a ((sortStrs_perm xs).mem_iff.mp ha)⟩

theorem processAnswer_addrsOk {rec : Resolver} {nv : List String} {st st' : SweepState}
    {ans : Json} (hrec : RecAddrsOk rec)
    (h : processAnswer rec nv st ans = .ok st') (hst : sweepAddrsOk st) :
    sweepAddrsOk st' := by
  unfold processAnswer at h
  dsimp only at h
  split at h
  · exact absurd h (by simp)
  split at h
  · exact absurd h (by simp)
  split at h
  · exact absurd h (by simp)
  split at h
  · exact absurd h (by simp)
  split at h
  · cases h; exact hst
  split at h
  · cases h
    exact ⟨setAdd_addrsOk hst.1 (rstripDots_idem _), hst.2⟩
  split at h
  · split at h
    · split at h
      · exact absurd h (by simp)
      · rename_i target_result cache' log' heq
        cases h
        have := hrec st.cache _ _ _ _ hst.2 heq
        exact ⟨setUnion_addrsOk hst.1 this.1.2, this.2⟩
    · cases h; exact hst
  · cases h; exact hst

theorem processAnswers_addrsOk {rec : Resolver} {nv : List String} :
    ∀ {answers : List Json} {st st' : SweepState}, RecAddrsOk rec →
    processAnswers rec nv st answers = .ok st' → sweepAddrsOk st → sweepAddrsOk st'
  | [], st, st', _, h, hst => by cases h; exact hst
  | a :: rest, st, st', hrec, h, hst => by
    unfold processAnswers at h
    split at h
    · exact absurd h (by simp)
    · rename_i st1 heq
      exact processAnswers_addrsOk hrec h (processAnswer_addrsOk hrec heq hst)

theorem processQuery_addrsOk {doh : DohOracle} {rec : Resolver} {key : String}
    {nv : List String} {st st' : SweepState} {endpoint rtype : String}
    (hrec : RecAddrsOk rec)
    (h : processQuery doh rec key nv st endpoint rtype = .ok st') (hst : sweepAddrsOk st) :
    sweepAddrsOk st' := by
  unfold processQuery at h
  dsimp only at h
  split at h
  · cases h; exact hst
  split at h
  · cases h; exact hst
  split at h
  · exact absurd h (by simp)
  split at h
  · exact absurd h (by simp)
  split at h
  · exact absurd h (by simp)
  split at h
  · exact absurd h (by simp)
  split at h
  · exact absurd h (by simp)
  rename_i st2 heq2
  have hst2 : sweepAddrsOk st2 := processAnswers_addrsOk hrec heq2 hst
  split at h
  · split at h
    · exact absurd h (by simp)
    split at h
    · exact absurd h (by simp)
    split at h
    · exact absurd h (by simp)
    cases h
    split
    · exact hst2
    · exact hst2
  · cases h; exact hst2

theorem processQueries_addrsOk {doh : DohOracle} {rec : Resolver} {key : String}
    {nv : List String} :
    ∀ {plan : List (String × String)} {st st' : SweepState}, RecAddrsOk rec →
    processQueries doh rec key nv st plan = .ok st' → sweepAddrsOk st → sweepAddrsOk st'
  | [], st, st', _, h, hst => by cases h; exact hst
  | (e, t) :: rest, st, st', hrec, h, hst => by
    unfold processQueries at h
    split at h
    · exact absurd h (by simp)
    · rename_i st1 heq
      exact processQueries_addrsOk hrec h (processQuery_addrsOk hrec heq hst)

theorem assocGet_mem {α : Type} : ∀ {c : List (String × α)} {key : String} {v : α},
    assocGet c key = some v → (key, v) ∈ c
  | [], _, _, h => by simp [assocGet] at h
  | (k, w) :: rest, key, v, h => by
    by_cases hk : k = key
    · simp [assocGet, hk] at h
      simp [hk, h]
    · simp [assocGet, hk] at h
      exact List.mem_cons_of_mem _ (assocGet_mem h)

theorem emptyServfail_addrsOk : resAddrsOk emptyServfail :=
  ⟨List.nodup_nil, by simp [emptyServfail]⟩

theorem sweep_addrsOk {doh : DohOracle} {rec : Resolver} {key : String}
    {nv : List String} {cache : Cache} {r : ResolutionResult} {c' : Cache} {l : QueryLog}
    (hrec : RecAddrsOk rec)
    (h : sweep doh rec key nv cache = .ok (r, c', l)) (hc : cacheAddrsOk cache) :
    resAddrsOk r ∧ cacheAddrsOk c' := by
  unfold sweep at h
  split at h
  · exact absurd h (by simp)
  · rename_i st heq
    have hst : sweepAddrsOk st :=
      processQueries_addrsOk hrec heq ⟨⟨List.nodup_nil, by simp⟩, hc⟩
    dsimp only at h
    cases h
    refine ⟨sortStrs_addrsOk hst.1, fun kr hkr => ?_⟩
    rcases List.mem_cons.mp hkr with hkr | hkr
    · subst hkr
      exact sortStrs_addrsOk hst.1
    · exact hst.2 kr hkr

theorem resolveFuel_addrsOk (doh : DohOracle) :
    ∀ (fuel : Nat) {cache : Cache} {domain : String} {visited : List String}
      {r : ResolutionResult} {c' : Cache} {l : QueryLog},
    resolveFuel fuel doh cache domain visited = .ok (r, c', l) → cacheAddrsOk cache →
    resAddrsOk r ∧ cacheAddrsOk c'
  | 0, cache, domain, visited, r, c', l, h, hc => by
    unfold resolveFuel at h
    split at h
    · rename_i cached hcached
      cases h
      exact ⟨hc _ (assocGet_mem hcached), hc⟩
    · cases h
      exact ⟨emptyServfail_addrsOk, hc⟩
  | fuel + 1, cache, domain, visited, r, c', l, h, hc => by
    unfold resolveFuel at h
    dsimp only at h
    split at h
    · rename_i cached hcached
      cases h
      exact ⟨hc _ (assocGet_mem hcached), hc⟩
    split at h
    · cases h
      exact ⟨emptyServfail_addrsOk, hc⟩
    · exact sweep_addrsOk
        (fun c d r' c'' l' hc' h' => resolveFuel_addrsOk doh fuel h' hc') h hc

theorem resolve_domain_addrsOk {doh : DohOracle} {cache : Cache} {domain : String}
    {visited : List String} {r : ResolutionResult} {c' : Cache} {l : QueryLog}
    (h : resolve_domain doh cache domain visited = .ok (r, c', l))
    (hc : cacheAddrsOk cache) : resAddrsOk r ∧ cacheAddrsOk c' :=
  resolveFuel_addrsOk doh _ h hc

theorem processQuery_emptyOk {doh : DohOracle} {rec : Resolver} {key : String}
    {nv : List String} {st st' : SweepState} {endpoint rtype : String}
    (hna : NoAnswerOracle doh)
    (h : processQuery doh rec key nv st endpoint rtype = .ok st') (hst : sweepEmptyOk st) :
    sweepEmptyOk st' := by
  unfold processQuery at h
  dsimp only at h
  split at h
  · cases h; exact hst
  rename_i data hdata
  split at h
  · cases h; exact hst
  rename_i htruthy
  split at h
  · exact absurd h (by simp)
  split at h
  · exact absurd h (by simp)
  rename_i status hstatus
  have hans : answersOf data = .ok [] :=
    hna endpoint key rtype data hdata (by revert htruthy; cases data.isTruthy <;> simp)
  split at h
  · rename_i e heq
    rw [answersOf, heq] at hans
    exact absurd hans (by simp)
  rename_i aj heq
  rw [answersOf, heq] at hans
  dsimp only at hans
  split at h
  · rename_i e heq2
    rw [heq2] at hans
    exact absurd hans (by simp)
  rename_i answers heq2
  rw [heq2] at hans
  have hnil : answers = [] := by cases hans; rfl
  subst hnil
  split at h
  · rename_i e heq3
    unfold processAnswers at heq3
    exact absurd heq3 (by simp)
  rename_i st2 heq3
  unfold processAnswers at heq3
  have hst2 : sweepEmptyOk st2 := by
    cases heq3; exact hst
  split at h
  · split at h
    · exact absurd h (by simp)
    split at h
    · exact absurd h (by simp)
    split at h
    · exact absurd h (by simp)
    cases h
    split
    · exact hst2
    · exact hst2
  · cases h; exact hst2

theorem processQueries_emptyOk {doh : DohOracle} {rec : Resolver} {key : String}
    {nv : List String} (hna : NoAnswerOracle doh) :
    ∀ {plan : List (String × String)} {st st' : SweepState},
    processQueries doh rec key nv st plan = .ok st' → sweepEmptyOk st → sweepEmptyOk st'
  | [], st, st', h, hst => by cases h; exact hst
  | (e, t) :: rest, st, st', h, hst => by
    unfold processQueries at h
    split at h
    · exact absurd h (by simp)
    · rename_i st1 heq
      exact processQueries_emptyOk hna h (processQuery_emptyOk hna heq hst)

theorem sweep_emptyOk {doh : DohOracle} {rec : Resolver} {key : String}
    {nv : List String} {cache : Cache} {r : ResolutionResult} {c' : Cache} {l : QueryLog}
    (hna : NoAnswerOracle doh)
    (h : sweep doh rec key nv cache = .ok (r, c', l)) (hc : cacheEmptyOk cache) :
    r.addresses = [] ∧ cacheEmptyOk c' := by
  unfold sweep at h
  split at h
  · exact absurd h (by simp)
  · rename_i st heq
    have hst : sweepEmptyOk st := processQueries_emptyOk hna heq ⟨rfl, hc⟩
    dsimp only at h
    cases h
    have hsorted : sortStrs st.addresses = [] := by rw [hst.1]; rfl
    refine ⟨hsorted, fun kr hkr => ?_⟩
    rcases List.mem_cons.mp hkr with hkr | hkr
    · subst hkr
      exact hsorted
    · exact hst.2 kr hkr

theorem resolveFuel_emptyOk (doh : DohOracle) (hna : NoAnswerOracle doh) :
    ∀ (fuel : Nat) {cache : Cache} {domain : String} {visited : List String}
      {r : ResolutionResult} {c' : Cache} {l : QueryLog},
    resolveFuel fuel doh cache domain visited = .ok (r, c', l) → cacheEmptyOk cache →
    r.addresses = [] ∧ cacheEmptyOk c'
  | 0, cache, domain, visited, r, c', l, h, hc => by
    unfold resolveFuel at h
    split at h
    · rename_i cached hcached
      cases h
      exact ⟨hc _ (assocGet_mem hcached), hc⟩
    · cases h
      exact ⟨rfl, hc⟩
  | fuel + 1, cache, domain, visited, r, c', l, h, hc => by
    unfold resolveFuel at h
    dsimp only at h
    split at h
    · rename_i cached hcached
      cases h
      exact ⟨hc _ (assocGet_mem hcached), hc⟩
    split at h
    · cases h
      exact ⟨rfl, hc⟩
    · exact sweep_emptyOk hna h hc

theorem resolve_domain_emptyOk {doh : DohOracle} {cache : Cache} {domain : String}
    {visited : List String} {r : ResolutionResult} {c' : Cache} {l : QueryLog}
    (hna : NoAnswerOracle doh)
    (h : resolve_domain doh cache domain visited = .ok (r, c', l))
    (hc : cacheEmptyOk cache) : r.addresses = [] ∧ cacheEmptyOk c' :=
  resolveFuel_emptyOk doh hna _ h hc

/-! ## Fuel irrelevance: any fuel at least `6 - visited.length` gives the
same answer, so the fuel-zero fallback never shows through `resolve_domain`. -/

theorem resolveFuel_fuel_irrelevant :
    ∀ (f g : Nat) (doh : DohOracle) (cache : Cache) (domain : String)
      (visited : List String), 6 - visited.length ≤ f → 6 - visited.length ≤ g →
    resolveFuel f doh cache domain visited = resolveFuel g doh cache domain visited
  | 0, g, doh, cache, domain, visited, hf, hg => by
    cases hget : assocGet cache (normKey domain) with
    | some r =>
      rw [resolveFuel_cache_hit 0 doh cache domain visited r hget,
          resolveFuel_cache_hit g doh cache domain visited r hget]
    | none =>
      rw [resolveFuel_guard 0 doh cache domain visited hget (Or.inr (by omega)),
          resolveFuel_guard g doh cache domain visited hget (Or.inr (by omega))]
  | f + 1, 0, doh, cache, domain, visited, hf, hg => by
    cases hget : assocGet cache (normKey domain) with
    | some r =>
      rw [resolveFuel_cache_hit (f + 1) doh cache domain visited r hget,
          resolveFuel_cache_hit 0 doh cache domain visited r hget]
    | none =>
      rw [resolveFuel_guard (f + 1) doh cache domain visited hget (Or.inr (by omega)),
          resolveFuel_guard 0 doh cache domain visited hget (Or.inr (by omega))]
  | f + 1, g + 1, doh, cache, domain, visited, hf, hg => by
    cases hget : assocGet cache (normKey domain) with
    | some r =>
      rw [resolveFuel_cache_hit (f + 1) doh cache domain visited r hget,
          resolveFuel_cache_hit (g + 1) doh cache domain visited r hget]
    | none =>
      by_cases hguard : normKey domain ∈ visited ∨ 5 < visited.length
      · rw [resolveFuel_guard (f + 1) doh cache domain visited hget hguard,
            resolveFuel_guard (g + 1) doh cache domain visited hget hguard]
      · rw [resolveFuel_sweep f doh cache domain visited hget hguard,
            resolveFuel_sweep g doh cache domain visited hget hguard]
        have hlen : visited.length ≤ 5 := by
          by_contra hlen
          exact hguard (Or.inr (by omega))
        have : (fun c d => resolveFuel f doh c d (normKey domain :: visited)) =
            (fun c d => resolveFuel g doh c d (normKey domain :: visited)) := by
          funext c d
          exact resolveFuel_fuel_irrelevant f g doh c d (normKey domain :: visited)
            (by simp; omega) (by simp; omega)
        rw [this]

/-! ## Small facts about the sinkhole classifier -/

theorem sinkhole_only_of {r : ResolutionResult} (hne : r.addresses ≠ [])
    (hall : ∀ a ∈ r.addresses, a ∈ SINKHOLE_IPS) : r.sinkhole_only = true := by
  unfold ResolutionResult.sinkhole_only ResolutionResult.has_non_sinkhole
  simp only [Bool.and_eq_true, Bool.not_eq_true', List.any_eq_false, List.isEmpty_eq_false]
  refine ⟨hne, fun a ha => ?_⟩
  simp only [Bool.not_eq_true', Bool.not_eq_false]
  exact List.elem_iff.mpr (hall a ha)

theorem sinkhole_only_indicates {r : ResolutionResult} (h : r.sinkhole_only = true) :
    r.indicates_presence = true := by
  unfold ResolutionResult.indicates_presence
  cases hh : r.has_non_sinkhole <;> simp [h, hh]

/-! ## Claim theorems -/

/-- C1 (counterexample): the probe can receive an HTTP response — the HEAD
request yields status 405 — and `responds` still returns `false`, because the
GET retry fails at the network level; so "any received response counts as
responding" does not hold as stated. -/
theorem responds_received_not_sufficient :
    (⟨some 405, none⟩ : HttpBehavior).head.isSome = true ∧
    responds ⟨some 405, none⟩ = false :=
  ⟨rfl, rfl⟩

/-- C1 (amended): `responds` returns `true` exactly when the request sequence
ends in a received response: a HEAD response with any status other than 405
counts, and after a 405 HEAD the GET retry's response (any status) counts;
it returns `false` when the HEAD request fails, or when a 405 HEAD is
followed by a GET that fails at the network level. -/
theorem responds_characterisation (b : HttpBehavior) :
    (∀ code, b.head = some code → code ≠ 405 → responds b = true)
    ∧ (b.head = some 405 → b.get.isSome = true → responds b = true)
    ∧ (b.head = none → responds b = false)
    ∧ (b.head = some 405 → b.get = none → responds b = false) := by
  refine ⟨?_, ?_, ?_, ?_⟩
  · intro code hh hc
    unfold responds
    rw [hh]
    simp [hc]
  · intro hh hg
    unfold responds
    rw [hh]
    simp [hg]
  · intro hh
    unfold responds
    rw [hh]
  · intro hh hg
    unfold responds
    rw [hh, hg]
    simp

/-- C1 (witness): the four cases of `responds_characterisation` at concrete
behaviours. -/
theorem responds_characterisation_witness :
    responds ⟨some 500, none⟩ = true ∧ responds ⟨some 405, some 500⟩ = true ∧
    responds ⟨none, none⟩ = false ∧ responds ⟨some 405, none⟩ = false :=
  ⟨(responds_characterisation ⟨some 500, none⟩).1 500 rfl (by decide),
   (responds_characterisation ⟨some 405, some 500⟩).2.1 rfl rfl,
   (responds_characterisation ⟨none, none⟩).2.2.1 rfl,
   (responds_characterisation ⟨some 405, none⟩).2.2.2 rfl rfl⟩

/-- C10: `indicates_presence` is `true` exactly when the address list is
non-empty — `has_non_sinkhole` or `sinkhole_only` collapses to "at least one
address was resolved", whatever the sinkhole set contains. -/
theorem indicates_presence_iff_nonempty (r : ResolutionResult) :
    r.indicates_presence = !r.addresses.isEmpty := by
  rcases r with ⟨addrs, auth, st⟩
  unfold ResolutionResult.indicates_presence ResolutionResult.sinkhole_only
    ResolutionResult.has_non_sinkhole
  cases addrs with
  | nil => rfl
  | cons a as =>
    cases h : (a :: as).any (fun address => !(SINKHOLE_IPS.contains address)) <;>
      simp_all

/-- C5: a repeated resolution of an already-cached normalised domain (trailing
dot stripped, lower-cased) returns the cached result, leaves the cache
untouched and issues no DoH queries at all (empty query log). -/
theorem resolve_cache_hit_no_queries (doh : DohOracle) (cache : Cache)
    (domain : String) (visited : List String) (r : ResolutionResult)
    (h : assocGet cache (normKey domain) = some r) :
    resolve_domain doh cache domain visited = .ok (r, cache, []) :=
  resolveFuel_cache_hit _ doh cache domain visited r h

/-- C5 (witness): `CACHED.Example.` normalises onto the cached key, so the
second lookup is answered from the cache with no queries. -/
theorem resolve_cache_hit_no_queries_witness :
    assocGet cache0 (normKey "CACHED.Example.") = some cachedRes ∧
    resolve_domain noneOracle cache0 "CACHED.Example." [] = .ok (cachedRes, cache0, []) :=
  ⟨rfl, resolve_cache_hit_no_queries noneOracle cache0 "CACHED.Example." [] cachedRes rfl⟩

/-- C4 (counterexample): the cache check precedes the cycle/depth guard, so a
call whose normalised domain is already in `visited` but also cached returns
the cached result — here non-empty with authority — not the empty
`status=2` result the claim describes. -/
theorem cached_key_overrides_guard :
    normKey "cached.example" ∈ (["cached.example"] : List String) ∧
    resolve_domain noneOracle cache0 "cached.example" ["cached.example"] =
      .ok (cachedRes, cache0, []) ∧
    cachedRes ≠ emptyServfail :=
  ⟨by decide, rfl, by decide⟩

/-- C4 (amended): for every oracle, resolution terminates — including on the
CNAME cycle `a.example → b.example → a.example`, which yields no addresses
and no authority — and whenever the normalised domain is not cached and is
already in `visited`, or the path depth exceeds the 5-hop cap, the call
returns at once with the empty result, `has_authority = false`, `status = 2`,
an unchanged cache and no queries issued. -/
theorem resolve_guard_cycle :
    (∀ (doh : DohOracle) (cache : Cache) (domain : String) (visited : List String),
      assocGet cache (normKey domain) = none →
      normKey domain ∈ visited ∨ 5 < visited.length →
      resolve_domain doh cache domain visited = .ok (emptyServfail, cache, []))
    ∧ ∃ l, resolve_domain cycleOracle [] "a.example" [] =
        .ok (⟨[], false, 0⟩, cycleCache, l) :=
  ⟨fun doh cache domain visited hmiss hguard =>
    resolveFuel_guard _ doh cache domain visited hmiss hguard,
   ⟨_, rfl⟩⟩

/-- C4 (witness): the guard at a concrete input — `hop.example` is already on
the path, so the call returns the empty serv-fail result immediately. -/
theorem resolve_guard_cycle_witness :
    assocGet ([] : Cache) (normKey "hop.example") = none ∧
    resolve_domain noneOracle [] "hop.example" ["hop.example"] =
      .ok (emptyServfail, [], []) :=
  ⟨rfl, resolve_guard_cycle.1 noneOracle [] "hop.example" ["hop.example"] rfl
    (Or.inl (by decide))⟩

/-- C9: a result produced by the cycle/depth guard is returned without being
written to the cache (the cache comes back unchanged), while a direct request
(empty `visited`) for an uncached domain runs the full sweep and stores its
aggregated result under the normalised key. -/
theorem guard_uncached_direct_cached (doh : DohOracle) (cache : Cache)
    (domain : String) (visited : List String)
    (hmiss : assocGet cache (normKey domain) = none) :
    ((normKey domain ∈ visited ∨ 5 < visited.length) →
      resolve_domain doh cache domain visited = .ok (emptyServfail, cache, []))
    ∧ (∀ r c' l, resolve_domain doh cache domain [] = .ok (r, c', l) →
      assocGet c' (normKey domain) = some r) := by
  constructor
  · intro hguard
    exact resolveFuel_guard _ doh cache domain visited hmiss hguard
  · intro r c' l h
    unfold resolve_domain at h
    have h6 : (6 : Nat) - ([] : List String).length = 5 + 1 := rfl
    rw [h6] at h
    rw [resolveFuel_sweep 5 doh cache domain [] hmiss (by simp)] at h
    unfold sweep at h
    split at h
    · exact absurd h (by simp)
    · rename_i st heq
      dsimp only at h
      cases h
      simp [assocGet]

/-- C9 (witness): at a concrete uncached domain, the guard instance returns
the unchanged empty cache, and the direct request caches its sweep result. -/
theorem guard_uncached_direct_cached_witness :
    assocGet ([] : Cache) (normKey "w.example") = none ∧
    resolve_domain noneOracle [] "w.example" ["w.example"] =
      .ok (emptyServfail, [], []) ∧
    assocGet [("w.example", emptyServfail)] (normKey "w.example") = some emptyServfail :=
  ⟨rfl,
   (guard_uncached_direct_cached noneOracle [] "w.example" ["w.example"] rfl).1
     (Or.inl (by decide)),
   (guard_uncached_direct_cached noneOracle [] "w.example" ["w.example"] rfl).2
     emptyServfail [("w.example", emptyServfail)] (planLog "w.example") rfl⟩

/-- C6: a bare-domain entry whose resolution has a non-empty address list
lying entirely inside the sinkhole set is classified live: `sinkhole_only`
holds, it implies `indicates_presence`, and `is_entry_live` returns `true`
without any HTTP probing. -/
theorem sinkhole_only_entry_live (doh : DohOracle) (http : HttpOracle)
    (rcache : Cache) (entry : String) (urls : List String)
    (r : ResolutionResult) (c' : Cache) (l : QueryLog)
    (hfull : is_full_url entry = false)
    (hres : resolve_domain doh rcache (strLower entry) [] = .ok (r, c', l))
    (hne : r.addresses ≠ []) (hall : ∀ a ∈ r.addresses, a ∈ SINKHOLE_IPS) :
    r.sinkhole_only = true ∧ r.indicates_presence = true ∧
    is_entry_live doh http rcache entry urls = .ok (true, c') := by
  have h1 : r.sinkhole_only = true := sinkhole_only_of hne hall
  have h2 : r.indicates_presence = true := sinkhole_only_indicates h1
  refine ⟨h1, h2, ?_⟩
  unfold is_entry_live
  rw [hfull]
  dsimp only
  rw [hres]
  dsimp only
  rw [h2]
  rfl

/-- C6 (witness): `sink.example` resolves only to `0.0.0.0` and is classified
live. -/
theorem sinkhole_only_entry_live_witness :
    is_full_url "sink.example" = false ∧ sinkRes.addresses ≠ [] ∧
    (∀ a ∈ sinkRes.addresses, a ∈ SINKHOLE_IPS) ∧
    (sinkRes.sinkhole_only = true ∧ sinkRes.indicates_presence = true ∧
      is_entry_live sinkOracle http0 [] "sink.example"
        ["http://sink.example", "https://sink.example"] = .ok (true, sinkCache)) :=
  ⟨rfl, by decide, by decide,
   sinkhole_only_entry_live sinkOracle http0 [] "sink.example"
     ["http://sink.example", "https://sink.example"] sinkRes sinkCache
     (planLog "sink.example") rfl rfl (by decide) (by decide)⟩

/-- C7: for a bare-domain entry with no address evidence but a seen SOA/NS
record, the engine checks the `www.`-prefixed name: if one of
`http://www.<domain>` / `https://www.<domain>` responds the entry is live,
and otherwise, if the separate DoH resolution of `www.<domain>` indicates
presence, it is also live. -/
theorem authority_www_fallback_live (doh : DohOracle) (http : HttpOracle)
    (rcache : Cache) (entry : String) (urls : List String)
    (r : ResolutionResult) (c1 : Cache) (l1 : QueryLog)
    (hfull : is_full_url entry = false)
    (hres : resolve_domain doh rcache (strLower entry) [] = .ok (r, c1, l1))
    (hnp : r.indicates_presence = false)
    (hauth : r.has_authority = true) :
    ((["http://" ++ ("www." ++ strLower entry),
       "https://" ++ ("www." ++ strLower entry)].any fun url => responds (http url)) = true →
      is_entry_live doh http rcache entry urls = .ok (true, c1))
    ∧ (∀ wr c2 l2,
      (["http://" ++ ("www." ++ strLower entry),
        "https://" ++ ("www." ++ strLower entry)].any fun url => responds (http url)) = false →
      resolve_domain doh c1 ("www." ++ strLower entry) [] = .ok (wr, c2, l2) →
      wr.indicates_presence = true →
      is_entry_live doh http rcache entry urls = .ok (true, c2)) := by
  constructor
  · intro hprobe
    unfold is_entry_live
    rw [hfull]
    dsimp only
    rw [hres]
    dsimp only
    simp [hnp, hauth, hprobe]
  · intro wr c2 l2 hprobe hwww hind
    unfold is_entry_live
    rw [hfull]
    dsimp only
    rw [hres]
    dsimp only
    simp only [hnp, hauth, hprobe, Bool.false_eq_true, if_false, if_true]
    rw [hwww]
    dsimp only
    rw [hind]
    rfl

/-- C7 (witness): `auth.example` has an SOA record and no addresses; its
`www.` probe responds over HTTP, so the entry is live. -/
theorem authority_www_fallback_live_witness :
    is_full_url "auth.example" = false ∧
    authRes.indicates_presence = false ∧ authRes.has_authority = true ∧
    is_entry_live authOracle authHttp [] "auth.example"
      ["http://auth.example", "https://auth.example"] = .ok (true, authCache) :=
  ⟨rfl, rfl, rfl,
   (authority_www_fallback_live authOracle authHttp [] "auth.example"
     ["http://auth.example", "https://auth.example"] authRes authCache
     (planLog "auth.example") rfl rfl rfl rfl).1 rfl⟩

theorem processLine_inert (doh : DohOracle) (http : HttpOracle) (s : RunState)
    (raw : String)
    (h : (strIsEmpty (strTrim raw) || strStartsWith (strTrim raw) "#") = true) :
    processLine doh http s raw = .ok { s with cleaned := s.cleaned ++ [raw] } := by
  unfold processLine
  dsimp only
  rw [h]
  rfl

theorem processLines_inert (doh : DohOracle) (http : HttpOracle) :
    ∀ (lines : List String) (s : RunState),
    (∀ raw ∈ lines, (strIsEmpty (strTrim raw) || strStartsWith (strTrim raw) "#") = true) →
    processLines doh http s lines = .ok { s with cleaned := s.cleaned ++ lines }
  | [], s, _ => by simp [processLines]
  | raw :: rest, s, h => by
    unfold processLines
    rw [processLine_inert doh http s raw (h raw (by simp))]
    dsimp only
    rw [processLines_inert doh http rest _ (fun r hr => h r (by simp [hr]))]
    simp

/-- C8: a line whose stripped text is empty or starts with `#` passes through
`main`'s loop verbatim — it is appended to the output exactly as read, in
sequence, and the removed/skipped lists and both caches are untouched (it is
never liveness-checked or counted); consequently a run over only such lines
reproduces them in order. -/
theorem inert_lines_pass_through (doh : DohOracle) (http : HttpOracle) :
    (∀ (s : RunState) (raw : String),
      (strIsEmpty (strTrim raw) || strStartsWith (strTrim raw) "#") = true →
      processLine doh http s raw = .ok { s with cleaned := s.cleaned ++ [raw] })
    ∧ (∀ (s : RunState) (lines : List String),
      (∀ raw ∈ lines, (strIsEmpty (strTrim raw) || strStartsWith (strTrim raw) "#") = true) →
      processLines doh http s lines = .ok { s with cleaned := s.cleaned ++ lines }) :=
  ⟨fun s raw h => processLine_inert doh http s raw h,
   fun s lines h => processLines_inert doh http lines s h⟩

/-- C8 (witness): a comment line and a run of comment/blank lines pass
through unchanged, with every other piece of state untouched. -/
theorem inert_lines_pass_through_witness :
    (strIsEmpty (strTrim " # comment ") || strStartsWith (strTrim " # comment ") "#") = true ∧
    processLine noneOracle http0 initState " # comment " =
      .ok { initState with cleaned := [" # comment "] } ∧
    processLines noneOracle http0 initState ["# a", "", "   ", "# b"] =
      .ok { initState with cleaned := ["# a", "", "   ", "# b"] } :=
  ⟨rfl,
   (inert_lines_pass_through noneOracle http0).1 initState " # comment " rfl,
   (inert_lines_pass_through noneOracle http0).2 initState ["# a", "", "   ", "# b"]
     (by decide)⟩

/-- C3 (counterexample): an AAAA answer `2001:DB8::1.` is stored with its
trailing dot stripped but with its letter case preserved — the address list
of the produced `ResolutionResult` is not lower-cased, contrary to the claim
(`addresses.add(value.rstrip("."))` never calls `.lower()`). -/
theorem resolve_addresses_not_lowercased :
    resolve_domain upperOracle [] "up.example" [] =
      .ok (upRes, [("up.example", upRes)], planLog "up.example") ∧
    upRes.addresses = ["2001:DB8::1"] ∧
    strLower "2001:DB8::1" ≠ "2001:DB8::1" :=
  ⟨rfl, rfl, by decide⟩

/-- C3 (amended): every `ResolutionResult` produced by `resolve_domain` (from
a cache whose entries already satisfy the invariant) has a deduplicated
address list in which every address has its trailing dots stripped — but kept
in the letter case the resolver returned — and the list is empty whenever no
resolver returned an answer record. -/
theorem resolve_addresses_invariant (doh : DohOracle) (cache : Cache)
    (domain : String) (visited : List String) (hc : cacheAddrsOk cache) :
    (∀ r c' l, resolve_domain doh cache domain visited = .ok (r, c', l) →
      r.addresses.Nodup ∧ ∀ a ∈ r.addresses, rstripDots a = a)
    ∧ (NoAnswerOracle doh → cacheEmptyOk cache →
      ∀ r c' l, resolve_domain doh cache domain visited = .ok (r, c', l) →
        r.addresses = []) :=
  ⟨fun r c' _ h => (resolve_domain_addrsOk h hc : resAddrsOk r ∧ cacheAddrsOk c').1,
   fun hna hce _ _ _ h => (resolve_domain_emptyOk hna h hce).1⟩

/-- C3 (witness): the invariant instantiated on the all-failing oracle. -/
theorem resolve_addresses_invariant_witness :
    cacheAddrsOk [] ∧ NoAnswerOracle noneOracle ∧ cacheEmptyOk [] ∧
    (emptyServfail.addresses.Nodup ∧ ∀ a ∈ emptyServfail.addresses, rstripDots a = a) ∧
    emptyServfail.addresses = [] := by
  have hc : cacheAddrsOk [] := by intro kr hkr; cases hkr
  have hna : NoAnswerOracle noneOracle := by intro e d t j hj; cases hj
  have hce : cacheEmptyOk [] := by intro kr hkr; cases hkr
  refine ⟨hc, hna, hce, ?_, ?_⟩
  · exact (resolve_addresses_invariant noneOracle [] "w.example" [] hc).1
      emptyServfail [("w.example", emptyServfail)] (planLog "w.example") rfl
  · exact (resolve_addresses_invariant noneOracle [] "w.example" [] hc).2 hna hce
      emptyServfail [("w.example", emptyServfail)] (planLog "w.example") rfl

/-- C2: `is_entry_live` is not exception-safe against ill-typed DoH JSON: a
syntactically valid body whose `Status` field is the string `"SERVFAIL"`
makes `int(data.get("Status", 0))` raise `ValueError`, which propagates out
of `resolve_domain` and `is_entry_live` and aborts the processing of all
subsequent entries in `main`'s loop. -/
theorem ill_typed_doh_json_raises :
    is_entry_live badStatusOracle http0 [] "bad.example"
      ["http://bad.example", "https://bad.example"] = .error .valueError ∧
    processLines badStatusOracle http0 initState
      ["# keep", "bad.example", "still.unprocessed.example"] = .error .valueError :=
  ⟨rfl, rfl⟩
